import Mathlib

/-!
Verification development for the Schedule Evaluator repository.

The definitions below are a shallow embedding of the Python sources
(`hard_constraints.py`, `soft_constraints.py`, `section_builder.py`,
`data_loader.py`, `config_loader.py`, `evaluator.py`).  Times are modelled
as `Int` minutes-from-midnight, entity ids as `Nat`, and Python `dict`
rows as structures whose fields carry `Option` for nullable values.
Python `defaultdict(list)` grouping (which preserves key insertion order)
is modelled by `groupByKeys` below.  Violation records keep the fields the
checks compute (kind, entity, day, magnitude); purely presentational
fields of the source (formatted time strings, human-readable details,
entity display names) are omitted, as are the penalty fields, which no
statement below concerns.
-/

namespace ScheduleEvaluator

/-- A unified schedule row (a canonical Meeting) as produced by
`ScheduleLoader._map_row` / `_merge_meeting_rows` in `data_loader.py`.
`all_*` fields are `none` when the corresponding dict key is absent
(unmerged rows); a merged row carries `some` list (possibly empty). -/
structure Row where
  meeting_id : Nat
  subject_id : Option Nat
  subject_name : Option String
  faculty_id : Option Nat
  faculty_name : Option String
  all_faculty_ids : Option (List Nat)
  all_faculty_names : Option (List String)
  batch_id : Option Nat
  all_batch_ids : Option (List Nat)
  room_id : Option Nat
  room_name : Option String
  all_room_ids : Option (List Nat)
  room_capacity : Option Int
  day : String
  start_minutes : Int
  end_minutes : Int
deriving Repr, DecidableEq

/-- A violation record.  The source emits dictionaries; we retain the
identifying fields and the magnitude. -/
structure Violation where
  kind : String
  entityType : String
  entityId : Option Nat
  subjectId : Option Nat
  day : Option String
  magnitude : Int
deriving Repr, DecidableEq

/-- The resolved configuration thresholds (`config_loader.py`,
`Config._initialize`), already converted to minutes. -/
structure Config where
  MAX_CONTINUOUS_CLASS_MINUTES : Int
  MIN_CONTINUOUS_CLASS_MINUTES : Int
  MIN_GAP_MINUTES : Int
  EXCESS_GAP_MINUTES : Int
  FRIDAY_LATE_MINUTES : Int
  MAX_SUBJECTS_PER_FACULTY : Nat
deriving Repr, DecidableEq

/-! ## Interval algebra (`hard_constraints.py` lines 11-20) -/

/-- Source `check_overlap(start1, end1, start2, end2)`. -/
def checkOverlap (start1 end1 start2 end2 : Int) : Bool :=
  start1 < end2 && start2 < end1

/-- Source `calculate_overlap_duration(start1, end1, start2, end2)`. -/
def calculateOverlapDuration (start1 end1 start2 end2 : Int) : Int :=
  let overlapStart := max start1 start2
  let overlapEnd := min end1 end2
  max 0 (overlapEnd - overlapStart)

/-! ## Grouping primitives

Python's `defaultdict(list)` populated with `by[key].append(row)` keeps
keys in first-insertion order and rows in append order; `groupByKeys`
reproduces that. -/

/-- Append `a` to the group of key `k`, creating the group at the end if
the key is new. -/
def addGroup {κ α : Type} [DecidableEq κ] :
    List (κ × List α) → κ → α → List (κ × List α)
  | [], k, a => [(k, [a])]
  | (k', g) :: rest, k, a =>
    if k' = k then (k', g ++ [a]) :: rest else (k', g) :: addGroup rest k a

/-- Group the elements of `l` by the keys `keysOf` assigns to each
element (an element is appended to the group of every key in its list,
in order). -/
def groupByKeys {κ α : Type} [DecidableEq κ] (keysOf : α → List κ)
    (l : List α) : List (κ × List α) :=
  l.foldl (fun gs a => (keysOf a).foldl (fun gs k => addGroup gs k a) gs) []

/-- Look up the group of key `k` (empty if absent). -/
def lookupGroup {κ α : Type} [DecidableEq κ] :
    List (κ × List α) → κ → List α
  | [], _ => []
  | (k', g) :: rest, k => if k' = k then g else lookupGroup rest k

/-- The key list used by the *hard* per-entity checks: fan a merged
meeting out to every id in its `all_*_ids` set when that set is truthy
(non-empty), else fall back to the single id field
(e.g. `hard_constraints.py` lines 36-42). -/
def idsForGrouping (allIds : Option (List Nat)) (single : Option Nat) :
    List Nat :=
  match allIds with
  | some (x :: xs) => x :: xs
  | _ =>
    match single with
    | some i => [i]
    | none => []

/-- The key list used by the *soft* per-entity checks
(`soft_constraints.py` lines 195-198 and 291-294): only the single
canonical id field is consulted. -/
def singleIdKeys (single : Option Nat) : List Nat :=
  match single with
  | some i => [i]
  | none => []

/-- Entity grouping with merged-meeting fan-out (hard checks). -/
def hardEntityGroups (rows : List Row) (allOf : Row → Option (List Nat))
    (singleOf : Row → Option Nat) : List (Nat × List Row) :=
  groupByKeys (fun r => idsForGrouping (allOf r) (singleOf r)) rows

/-- Entity grouping by the canonical single id only (soft checks). -/
def softEntityGroups (rows : List Row) (singleOf : Row → Option Nat) :
    List (Nat × List Row) :=
  groupByKeys (fun r => singleIdKeys (singleOf r)) rows

/-- Group a list of meetings by day (`by_day[m['day']].append(m)`). -/
def dayGroups (ms : List Row) : List (String × List Row) :=
  groupByKeys (fun m => [m.day]) ms

/-! ## Stable sort by start minutes (`day_meetings.sort(key=...)`) -/

/-- Insert `m` after every element whose start does not exceed `m`'s
(keeps the insertion stable for equal keys). -/
def insertByStart (m : Row) : List Row → List Row
  | [] => [m]
  | x :: xs =>
    if x.start_minutes ≤ m.start_minutes then x :: insertByStart m xs
    else m :: x :: xs

/-- Stable sort of the day's meetings by `start_minutes`, mirroring
Python's stable `list.sort`. -/
def sortByStart (l : List Row) : List Row :=
  l.foldl (fun acc m => insertByStart m acc) []

/-- Iterate the entity groups, then the day groups of each entity,
applying a per-day check (common skeleton of all per-entity rules). -/
def forEachEntityDay (gs : List (Nat × List Row))
    (f : Nat → String → List Row → List Violation) : List Violation :=
  gs.flatMap fun p => (dayGroups p.2).flatMap fun q => f p.1 q.1 q.2

/-! ## Reference data (`data_loader.py`, class `ReferenceData`)

Faculty and room records are stored as open string-keyed dicts in the
source; the checks read them back with `dict.get(key, default)`.  We
model those dicts explicitly so that key-mismatch behaviour is
preserved. -/

/-- One value stored in a Python record dict. -/
inductive DVal
  | int (n : Int)
  | str (s : String)
  | ids (l : List Nat)
deriving Repr, DecidableEq

/-- A Python record dict: an association list built with fixed keys. -/
def PyDict := List (String × DVal)

/-- Source `d.get(key, default)` for an int-valued read. -/
def dictGetInt (d : PyDict) (key : String) (default : Int) : Int :=
  match d.find? (fun p => p.1 = key) with
  | some (_, DVal.int n) => n
  | _ => default

/-- Source `d.get(key, default)` for a list-of-ids read. -/
def dictGetIds (d : PyDict) (key : String) (default : List Nat) : List Nat :=
  match d.find? (fun p => p.1 = key) with
  | some (_, DVal.ids l) => l
  | _ => default

/-- One parsed line of `faculty.csv` (`ReferenceData._load_faculty`).
`min_load`/`max_load` are floats in the source; no statement below
depends on their fractional part, so they are carried as `Int`. -/
structure FacultyCsvRow where
  faculty_id : Nat
  faculty_name : String
  min_load : Int
  max_load : Int
  max_subjects : Int
  preferred_subjects : List Nat
  qualified_subjects : List Nat
deriving Repr, DecidableEq

/-- The dict `ReferenceData._load_faculty` stores for one faculty row:
exactly these keys, and no others. -/
def loadFacultyData (r : FacultyCsvRow) : PyDict :=
  [("faculty_id", DVal.int r.faculty_id),
   ("faculty_name", DVal.str r.faculty_name),
   ("min_load", DVal.int r.min_load),
   ("max_load", DVal.int r.max_load),
   ("max_subjects", DVal.int r.max_subjects),
   ("preferred_subjects", DVal.ids r.preferred_subjects),
   ("qualified_subjects", DVal.ids r.qualified_subjects)]

/-- One parsed line of `subjects.csv` (fields the checks read). -/
structure SubjectCsvRow where
  subject_id : Nat
  subject_name : String
  linked_subject_id : Option Nat
deriving Repr, DecidableEq

/-- One parsed line of `rooms.csv`. -/
structure RoomCsvRow where
  room_id : Nat
  room_name : String
  capacity : Int
deriving Repr, DecidableEq

/-- The dict `ReferenceData._load_rooms` stores for one room row:
exactly these keys (note: no `optimal_capacity` / `min_capacity`). -/
def loadRoomData (r : RoomCsvRow) : PyDict :=
  [("room_id", DVal.int r.room_id),
   ("room_name", DVal.str r.room_name),
   ("capacity", DVal.int r.capacity)]

/-- One parsed line of `student_batches.csv`. -/
structure BatchCsvRow where
  batch_id : Nat
  batch_name : String
  population : Int
deriving Repr, DecidableEq

/-- One banned time slot (`ReferenceData._load_banned_times`);
`faculty_name` is the empty string when the slot applies to everyone. -/
structure BannedSlot where
  faculty_name : String
  day : String
  start_minutes : Int
  end_minutes : Int
deriving Repr, DecidableEq

/-- An external faculty commitment (`check_external_meeting_conflicts`). -/
structure ExtMeeting where
  faculty_name : String
  day : String
  start_minutes : Int
  end_minutes : Int
deriving Repr, DecidableEq

/-- The loaded reference data.  `externalMeetings = none` models the
absent `external_meetings` attribute (`ReferenceData` never assigns it,
so `hasattr` is false in the source). -/
structure RefData where
  facultyRows : List FacultyCsvRow
  subjectRows : List SubjectCsvRow
  roomRows : List RoomCsvRow
  batchRows : List BatchCsvRow
  bannedTimes : List BannedSlot
  externalMeetings : Option (List ExtMeeting)

/-- Source `reference_data.faculty_by_id.get(fid, {})`. -/
def RefData.facultyDict (rd : RefData) (fid : Nat) : PyDict :=
  ((rd.facultyRows.find? (fun r => r.faculty_id = fid)).map
    loadFacultyData).getD []

/-- Source `reference_data.rooms_by_id.get(rid, {})`. -/
def RefData.roomDict (rd : RefData) (rid : Nat) : PyDict :=
  ((rd.roomRows.find? (fun r => r.room_id = rid)).map loadRoomData).getD []

/-- Source `reference_data.subjects_by_id.get(sid)` as a structured row. -/
def RefData.findSubject (rd : RefData) (sid : Nat) : Option SubjectCsvRow :=
  rd.subjectRows.find? (fun r => r.subject_id = sid)

/-- Source `reference_data.batches_by_id.get(bid, {}).get('population', 0)`. -/
def RefData.batchPopulation (rd : RefData) (bid : Nat) : Int :=
  match rd.batchRows.find? (fun r => r.batch_id = bid) with
  | some r => r.population
  | none => 0

/-! ## Hard constraints (`hard_constraints.py`) -/

/-- The inner `for i / for j in range(i+1, ...)` pair scan of the time
conflict checks: every ordered pair of distinct meetings that overlaps
yields one violation whose magnitude is the overlap duration. -/
def pairConflictViols (kind etype : String) (eid : Nat) (d : String) :
    List Row → List Violation
  | [] => []
  | m1 :: rest =>
    rest.filterMap (fun m2 =>
      if checkOverlap m1.start_minutes m1.end_minutes
          m2.start_minutes m2.end_minutes then
        some { kind := kind, entityType := etype, entityId := some eid,
               subjectId := none, day := some d,
               magnitude := calculateOverlapDuration m1.start_minutes
                 m1.end_minutes m2.start_minutes m2.end_minutes }
      else none) ++ pairConflictViols kind etype eid d rest

/-- One entity's one day of the time-conflict scan (sort, then pairs). -/
def timeConflictDay (kind etype : String) (eid : Nat) (d : String)
    (l : List Row) : List Violation :=
  pairConflictViols kind etype eid d (sortByStart l)

/-- Source `check_faculty_time_conflicts`. -/
def checkFacultyTimeConflicts (rows : List Row) : List Violation :=
  forEachEntityDay (hardEntityGroups rows (·.all_faculty_ids) (·.faculty_id))
    (timeConflictDay "Faculty Time Conflict" "Faculty")

/-- Source `check_batch_time_conflicts`. -/
def checkBatchTimeConflicts (rows : List Row) : List Violation :=
  forEachEntityDay (hardEntityGroups rows (·.all_batch_ids) (·.batch_id))
    (timeConflictDay "Batch Time Conflict" "Batch")

/-- Source `check_room_time_conflicts`. -/
def checkRoomTimeConflicts (rows : List Row) : List Violation :=
  forEachEntityDay (hardEntityGroups rows (·.all_room_ids) (·.room_id))
    (timeConflictDay "Room Time Conflict" "Room")

/-- A Section (`section_builder.py`, class `Section`), with the fields
the checks consume. -/
structure Section where
  subject_id : Nat
  faculty_id : Option Nat
  batch_ids : List Nat
  total_students : Int
  room_id : Option Nat
  room_name : Option String
  room_capacity : Option Int
  meetings : List Row
deriving Repr, DecidableEq

/-- Source `check_room_capacity`. -/
def checkRoomCapacity (sections : List Section) : List Violation :=
  sections.filterMap fun s =>
    match s.room_id, s.room_capacity with
    | some _, some cap =>
      if s.total_students > cap then
        some { kind := "Room Capacity Exceeded", entityType := "Section",
               entityId := none, subjectId := some s.subject_id, day := none,
               magnitude := s.total_students - cap }
      else none
    | _, _ => none

/-- The block-tracking loop of `_check_continuous_for_entity_type`
(lines 304-355): `blockStart`/`blockEnd` are the running block bounds,
`current` the meeting at index `i`, the list the remaining meetings. -/
def hardContinuousAux (maxM : Int) (etype : String) (eid : Nat)
    (d : String) :
    Int → Int → Row → List Row → List Violation
  | blockStart, _blockEnd, current, [] =>
    if current.end_minutes - blockStart > maxM then
      [{ kind := "Max Continuous Class Exceeded", entityType := etype,
         entityId := some eid, subjectId := none, day := some d,
         magnitude := current.end_minutes - blockStart - maxM }]
    else []
  | blockStart, blockEnd, current, next :: rest =>
    if current.end_minutes = next.start_minutes then
      hardContinuousAux maxM etype eid d blockStart next.end_minutes next rest
    else
      (if blockEnd - blockStart > maxM then
        [{ kind := "Max Continuous Class Exceeded", entityType := etype,
           entityId := some eid, subjectId := none, day := some d,
           magnitude := blockEnd - blockStart - maxM }]
      else []) ++
      hardContinuousAux maxM etype eid d next.start_minutes next.end_minutes
        next rest

/-- One entity's one day of the hard max-continuous check. -/
def maxContinuousDay (maxM : Int) (etype : String) (eid : Nat) (d : String)
    (l : List Row) : List Violation :=
  match sortByStart l with
  | [] => []
  | m :: rest =>
    hardContinuousAux maxM etype eid d m.start_minutes m.end_minutes m rest

/-- Source `check_max_continuous_class` (faculty pass then batch pass). -/
def checkMaxContinuousClass (rows : List Row) (cfg : Config) :
    List Violation :=
  forEachEntityDay (hardEntityGroups rows (·.all_faculty_ids) (·.faculty_id))
    (maxContinuousDay cfg.MAX_CONTINUOUS_CLASS_MINUTES "Faculty") ++
  forEachEntityDay (hardEntityGroups rows (·.all_batch_ids) (·.batch_id))
    (maxContinuousDay cfg.MAX_CONTINUOUS_CLASS_MINUTES "Batch")

/-- The adjacent-pair gap scan of `_check_gap_for_entity_type`
(lines 416-436). -/
def gapViolsAux (minGap : Int) (etype : String) (eid : Nat) (d : String) :
    List Row → List Violation
  | m1 :: m2 :: rest =>
    let gap := m2.start_minutes - m1.end_minutes
    (if 0 < gap ∧ gap < minGap then
      [{ kind := "Min Gap Violation", entityType := etype,
         entityId := some eid, subjectId := none, day := some d,
         magnitude := minGap - gap }]
    else []) ++ gapViolsAux minGap etype eid d (m2 :: rest)
  | _ => []

/-- One entity's one day of the hard min-gap check. -/
def minGapDay (minGap : Int) (etype : String) (eid : Nat) (d : String)
    (l : List Row) : List Violation :=
  gapViolsAux minGap etype eid d (sortByStart l)

/-- Source `check_min_gap` (faculty pass then batch pass). -/
def checkMinGap (rows : List Row) (cfg : Config) : List Violation :=
  forEachEntityDay (hardEntityGroups rows (·.all_faculty_ids) (·.faculty_id))
    (minGapDay cfg.MIN_GAP_MINUTES "Faculty") ++
  forEachEntityDay (hardEntityGroups rows (·.all_batch_ids) (·.batch_id))
    (minGapDay cfg.MIN_GAP_MINUTES "Batch")

/-- The faculty names a banned slot is matched against for one meeting
(`check_banned_times` lines 464-469: the truthy `all_faculty_names`
list, else the truthy single `faculty_name`). -/
def facultyNamesToCheck (m : Row) : List String :=
  match m.all_faculty_names with
  | some (x :: xs) => x :: xs
  | _ =>
    match m.faculty_name with
    | some n => if n = "" then [] else [n]
    | none => []

/-- Source `check_banned_times`. -/
def checkBannedTimes (rows : List Row) (banned : List BannedSlot) :
    List Violation :=
  banned.flatMap fun b =>
    rows.filterMap fun m =>
      if m.day ≠ b.day then none
      else if b.faculty_name ≠ "" ∧ b.faculty_name ∉ facultyNamesToCheck m
      then none
      else if checkOverlap m.start_minutes m.end_minutes
          b.start_minutes b.end_minutes then
        some { kind := "Banned Time Violation", entityType := "Meeting",
               entityId := none, subjectId := none, day := some b.day,
               magnitude := calculateOverlapDuration m.start_minutes
                 m.end_minutes b.start_minutes b.end_minutes }
      else none

/-- A valid lecture-lab pair (`section_builder.py`, `LectureLabPair`). -/
structure LLPair where
  lecture : Section
  lab : Section
deriving Repr, DecidableEq

/-- The per-(lecture meeting, lab meeting) body of
`check_lecture_lab_separation` (lines 541-585). -/
def lectureLabPairViols (d : String) (lecM labM : Row) : List Violation :=
  let isBackToBack :=
    lecM.end_minutes = labM.start_minutes ∨
    labM.end_minutes = lecM.start_minutes
  let sameRoom := lecM.room_id = labM.room_id ∧ lecM.room_id ≠ none
  if ¬ isBackToBack then
    [{ kind := "Lecture-Lab Separation", entityType := "Section",
       entityId := none, subjectId := none, day := some d, magnitude := 1 }]
  else if ¬ sameRoom then
    [{ kind := "Lecture-Lab Separation", entityType := "Section",
       entityId := none, subjectId := none, day := some d, magnitude := 1 }]
  else []

/-- Source `check_lecture_lab_separation`.  The source iterates the common
days as a Python set intersection, whose order is unspecified; we fix
the lecture sections' day insertion order, which does not affect any
per-day statement. -/
def checkLectureLabSeparation (pairs : List LLPair) : List Violation :=
  pairs.flatMap fun p =>
    let lecByDay := dayGroups p.lecture.meetings
    let labByDay := dayGroups p.lab.meetings
    (lecByDay.filter fun q => lookupGroup labByDay q.1 ≠ []).flatMap fun q =>
      q.2.flatMap fun lecM =>
        (lookupGroup labByDay q.1).flatMap fun labM =>
          lectureLabPairViols q.1 lecM labM

/-- Source `check_all_hard_constraints`. -/
def checkAllHardConstraints (rows : List Row) (sections : List Section)
    (rd : RefData) (cfg : Config) (pairs : Option (List LLPair)) :
    List Violation :=
  checkFacultyTimeConflicts rows ++
  checkBatchTimeConflicts rows ++
  checkRoomTimeConflicts rows ++
  checkRoomCapacity sections ++
  checkMaxContinuousClass rows cfg ++
  checkMinGap rows cfg ++
  checkBannedTimes rows rd.bannedTimes ++
  (match pairs with
   | some ps => checkLectureLabSeparation ps
   | none => [])

/-! ## Soft constraints (`soft_constraints.py`) -/

/-- Source `defaultdict(int)` accumulation preserving key insertion order. -/
def addCount {κ : Type} [DecidableEq κ] :
    List (κ × Int) → κ → Int → List (κ × Int)
  | [], k, v => [(k, v)]
  | (k', n) :: rest, k, v =>
    if k' = k then (k', n + v) :: rest else (k', n) :: addCount rest k v

/-- Source `counts.get(k, 0)`. -/
def lookupCount {κ : Type} [DecidableEq κ] :
    List (κ × Int) → κ → Int
  | [], _ => 0
  | (k', n) :: rest, k => if k' = k then n else lookupCount rest k

/-- Total scheduled minutes per faculty (`faculty_minutes` accumulation
in `check_faculty_overload` / `check_faculty_underfill`): every row with
a non-null canonical `faculty_id` contributes `end - start` minutes. -/
def facultyMinutes (rows : List Row) : List (Nat × Int) :=
  rows.foldl (fun acc r =>
    match r.faculty_id with
    | some fid => addCount acc fid (r.end_minutes - r.start_minutes)
    | none => acc) []

/-- Source `check_faculty_overload`.  The threshold is read back as
`faculty_data.get('max_hours_per_week', 0) * 60`; `loadFacultyData`
never stores that key.  (If the guard ever passed, the source would
next read `config.FACULTY_OVERLOAD_PER_MINUTE`, an attribute
`Config._initialize` does not define.) -/
def checkFacultyOverload (rows : List Row) (rd : RefData) :
    List Violation :=
  (facultyMinutes rows).filterMap fun ft =>
    let fd := rd.facultyDict ft.1
    let maxMinutes := dictGetInt fd "max_hours_per_week" 0 * 60
    if maxMinutes > 0 ∧ ft.2 > maxMinutes then
      some { kind := "Faculty Overload", entityType := "Faculty",
             entityId := some ft.1, subjectId := none, day := none,
             magnitude := ft.2 - maxMinutes }
    else none

/-- Source `check_faculty_underfill`: iterates every catalog faculty, reading
`faculty_data.get('min_hours_per_week', 0) * 60` — again a key
`loadFacultyData` never stores. -/
def checkFacultyUnderfill (rows : List Row) (rd : RefData) :
    List Violation :=
  let fm := facultyMinutes rows
  rd.facultyRows.filterMap fun r =>
    let minMinutes := dictGetInt (loadFacultyData r) "min_hours_per_week" 0 * 60
    let total := lookupCount fm r.faculty_id
    if minMinutes > 0 ∧ total < minMinutes then
      some { kind := "Faculty Underfill", entityType := "Faculty",
             entityId := some r.faculty_id, subjectId := none, day := none,
             magnitude := minMinutes - total }
    else none

/-- Source `check_section_overfill`: compares against
`room.get('optimal_capacity', room.get('capacity', 0))`; the `if
optimal_capacity and ...` guard treats 0 as falsy. -/
def checkSectionOverfill (sections : List Section) (rd : RefData) :
    List Violation :=
  sections.filterMap fun s =>
    match s.room_id with
    | none => none
    | some rid =>
      let roomD := rd.roomDict rid
      let optimal := dictGetInt roomD "optimal_capacity"
        (dictGetInt roomD "capacity" 0)
      if optimal ≠ 0 ∧ s.total_students > optimal then
        some { kind := "Section Overfill", entityType := "Section",
               entityId := none, subjectId := some s.subject_id, day := none,
               magnitude := s.total_students - optimal }
      else none

/-- Source `check_section_underfill`: reads `room.get('min_capacity', 0)`, a
key `loadRoomData` never stores, so the falsy-0 guard never passes for
loader-built room dicts. -/
def checkSectionUnderfill (sections : List Section) (rd : RefData) :
    List Violation :=
  sections.filterMap fun s =>
    match s.room_id with
    | none => none
    | some rid =>
      let minCap := dictGetInt (rd.roomDict rid) "min_capacity" 0
      if minCap ≠ 0 ∧ s.total_students < minCap then
        some { kind := "Section Underfill", entityType := "Section",
               entityId := none, subjectId := some s.subject_id, day := none,
               magnitude := minCap - s.total_students }
      else none

/-- The block-collecting loop of `_check_min_continuous_for_entity`
(lines 219-233): running block bounds, remaining meetings, returning
the list of `(block_start, block_end)` spans. -/
def softBlocksAux : Int → Int → List Row → List (Int × Int)
  | blockStart, blockEnd, [] => [(blockStart, blockEnd)]
  | blockStart, blockEnd, current :: rest =>
    if current.start_minutes = blockEnd then
      softBlocksAux blockStart current.end_minutes rest
    else
      (blockStart, blockEnd) ::
        softBlocksAux current.start_minutes current.end_minutes rest

/-- The continuous-block segmentation of one day's meeting list as the
soft checker computes it. -/
def softBlocks : List Row → List (Int × Int)
  | [] => []
  | m :: rest => softBlocksAux m.start_minutes m.end_minutes rest

/-- One entity's one day of the soft min-continuous check: build the
blocks of the sorted list, then flag every block with
`0 < duration < min`. -/
def minContinuousDay (minM : Int) (etype : String) (eid : Nat) (d : String)
    (l : List Row) : List Violation :=
  (softBlocks (sortByStart l)).filterMap fun bk =>
    let dur := bk.2 - bk.1
    if dur > 0 ∧ dur < minM then
      some { kind := "Min Continuous Class", entityType := etype,
             entityId := some eid, subjectId := none, day := some d,
             magnitude := minM - dur }
    else none

/-- Source `check_min_continuous_class` (faculty pass then batch pass; note
the grouping uses only the single canonical id field). -/
def checkMinContinuousClass (rows : List Row) (cfg : Config) :
    List Violation :=
  forEachEntityDay (softEntityGroups rows (·.faculty_id))
    (minContinuousDay cfg.MIN_CONTINUOUS_CLASS_MINUTES "Faculty") ++
  forEachEntityDay (softEntityGroups rows (·.batch_id))
    (minContinuousDay cfg.MIN_CONTINUOUS_CLASS_MINUTES "Batch")

/-- The adjacent-pair scan of `_check_excess_gap_for_entity`
(lines 311-332). -/
def excessGapAux (threshold : Int) (etype : String) (eid : Nat)
    (d : String) : List Row → List Violation
  | m1 :: m2 :: rest =>
    let gap := m2.start_minutes - m1.end_minutes
    (if gap > threshold then
      [{ kind := "Excess Gap", entityType := etype, entityId := some eid,
         subjectId := none, day := some d, magnitude := gap - threshold }]
    else []) ++ excessGapAux threshold etype eid d (m2 :: rest)
  | _ => []

/-- One entity's one day of the soft excess-gap check. -/
def excessGapDay (threshold : Int) (etype : String) (eid : Nat)
    (d : String) (l : List Row) : List Violation :=
  excessGapAux threshold etype eid d (sortByStart l)

/-- Source `check_excess_gap` (faculty pass then batch pass; grouping uses only
the single canonical id field). -/
def checkExcessGap (rows : List Row) (cfg : Config) : List Violation :=
  forEachEntityDay (softEntityGroups rows (·.faculty_id))
    (excessGapDay cfg.EXCESS_GAP_MINUTES "Faculty") ++
  forEachEntityDay (softEntityGroups rows (·.batch_id))
    (excessGapDay cfg.EXCESS_GAP_MINUTES "Batch")

/-- The qualification of one row for the non-preferred-subject grouping
(`check_non_preferred_subject` lines 353-363): both ids resolved, a
non-empty preferred list, and the subject outside it. -/
def nonPreferredKeys (rd : RefData) (r : Row) : List (Nat × Nat) :=
  match r.faculty_id, r.subject_id with
  | some f, some s =>
    let preferred := dictGetIds (rd.facultyDict f) "preferred_subjects" []
    if preferred ≠ [] ∧ s ∉ preferred then [(f, s)] else []
  | _, _ => []

/-- Source `check_non_preferred_subject`: one violation per (faculty, subject)
group, magnitude the number of grouped rows. -/
def checkNonPreferredSubject (rows : List Row) (rd : RefData) :
    List Violation :=
  (groupByKeys (nonPreferredKeys rd) rows).map fun pg =>
    { kind := "Non-Preferred Subject", entityType := "Faculty",
      entityId := some pg.1.1, subjectId := some pg.1.2, day := none,
      magnitude := (pg.2.length : Int) }

/-- Source `check_friday_late_classes`. -/
def checkFridayLateClasses (rows : List Row) (cfg : Config) :
    List Violation :=
  rows.filterMap fun r =>
    if r.day.toUpper = "FRIDAY" ∨ r.day.toUpper = "FRI" then
      if r.end_minutes > cfg.FRIDAY_LATE_MINUTES then
        some { kind := "Friday Late Class", entityType := "Meeting",
               entityId := none, subjectId := r.subject_id,
               day := some r.day,
               magnitude := r.end_minutes - cfg.FRIDAY_LATE_MINUTES }
      else none
    else none

/-- Python `str.rstrip(chars)`: drop trailing characters belonging to
the given set. -/
def rstripChars (s : String) (cs : List Char) : String :=
  String.mk ((s.toList.reverse.dropWhile (fun c => c ∈ cs)).reverse)

/-- Source `get_base_subject_name` (`soft_constraints.py` lines 426-449).
Python's `if linked_id:` treats a stored 0 as falsy. -/
def getBaseSubjectName (subjectName : String) (rd : RefData)
    (subjectId : Option Nat) : String :=
  match subjectId with
  | none =>
    let name := (subjectName.toUpper).replace "_" ""
    if name.endsWith "L" ∨ name.endsWith "LAB" then
      rstripChars (rstripChars name ['L']) ['A', 'B']
    else subjectName
  | some sid =>
    match rd.findSubject sid with
    | none => subjectName
    | some sd =>
      match sd.linked_subject_id with
      | some lid =>
        if lid ≠ 0 then
          match rd.findSubject lid with
          | some ld => ld.subject_name
          | none => subjectName
        else subjectName
      | none => subjectName

/-- Python-set insertion: the distinct elements in first-seen order
(only the count of a `set` is consumed by the check). -/
def dedupKeepFirst {α : Type} [DecidableEq α] (l : List α) : List α :=
  l.foldl (fun acc a => if a ∈ acc then acc else acc ++ [a]) []

/-- Source `check_excess_subjects`: counts distinct base subject names per
faculty (rows with a resolved faculty and a non-null subject name). -/
def checkExcessSubjects (rows : List Row) (rd : RefData) (cfg : Config) :
    List Violation :=
  let groups := groupByKeys (fun r =>
    match r.faculty_id, r.subject_name with
    | some f, some _ => [f]
    | _, _ => []) rows
  groups.filterMap fun fg =>
    let baseNames := dedupKeepFirst (fg.2.map fun r =>
      getBaseSubjectName (r.subject_name.getD "") rd r.subject_id)
    if baseNames.length > cfg.MAX_SUBJECTS_PER_FACULTY then
      some { kind := "Excess Subjects", entityType := "Faculty",
             entityId := some fg.1, subjectId := none, day := none,
             magnitude := (baseNames.length : Int) -
               (cfg.MAX_SUBJECTS_PER_FACULTY : Int) }
    else none

/-- Source `check_external_meeting_conflicts`: returns nothing when the
attribute is absent (`none`) or the list is empty; otherwise the overlap
is computed without the `max 0` clamp (lines 526-529). -/
def checkExternalMeetingConflicts (rows : List Row) (rd : RefData) :
    List Violation :=
  match rd.externalMeetings with
  | none => []
  | some [] => []
  | some (e :: es) =>
    (e :: es).flatMap fun ext =>
      rows.filterMap fun m =>
        if m.faculty_name ≠ some ext.faculty_name then none
        else if m.day ≠ ext.day then none
        else if m.start_minutes < ext.end_minutes ∧
            ext.start_minutes < m.end_minutes then
          some { kind := "External Meeting Conflict", entityType := "Faculty",
                 entityId := none, subjectId := none, day := some ext.day,
                 magnitude := min m.end_minutes ext.end_minutes -
                   max m.start_minutes ext.start_minutes }
        else none

/-- Source `check_all_soft_constraints`. -/
def checkAllSoftConstraints (rows : List Row) (sections : List Section)
    (rd : RefData) (cfg : Config) : List Violation :=
  checkFacultyOverload rows rd ++
  checkFacultyUnderfill rows rd ++
  checkSectionOverfill sections rd ++
  checkSectionUnderfill sections rd ++
  checkMinContinuousClass rows cfg ++
  checkExcessGap rows cfg ++
  checkNonPreferredSubject rows rd ++
  checkFridayLateClasses rows cfg ++
  checkExcessSubjects rows rd cfg ++
  checkExternalMeetingConflicts rows rd

/-! ## Section builder (`section_builder.py`, `build_sections`) -/

/-- The batch-id resolution of `build_sections` lines 108-112, which
coincides with the merged-meeting fan-out resolution. -/
def meetingBatchIds (m : Row) : List Nat :=
  idsForGrouping m.all_batch_ids m.batch_id

/-- Ordered insertion without duplicates (canonical `frozenset` form:
two batch-id lists get the same canonical form iff they are equal as
sets). -/
def insertNatSet (n : Nat) : List Nat → List Nat
  | [] => [n]
  | x :: xs =>
    if n = x then x :: xs
    else if n < x then n :: x :: xs
    else x :: insertNatSet n xs

/-- Canonical sorted-deduplicated form of an id set. -/
def canonIds (l : List Nat) : List Nat :=
  l.foldl (fun acc n => insertNatSet n acc) []

/-- The section grouping key of one meeting
(`(subject_id, faculty_id, frozenset(batch_ids))`), or no key at all
when the meeting is skipped: a null `subject_id` (line 104), or neither
faculty nor batches (line 115). -/
def sectionKeys (m : Row) : List (Nat × Option Nat × List Nat) :=
  match m.subject_id with
  | none => []
  | some sid =>
    let batchIds := meetingBatchIds m
    if m.faculty_id = none ∧ batchIds = [] then []
    else [(sid, m.faculty_id, canonIds batchIds)]

/-- Source `build_sections` (section indices and display names omitted). -/
def buildSections (rows : List Row) (rd : RefData) : List Section :=
  (groupByKeys sectionKeys rows).map fun kg =>
    let firstRoom := kg.2.findSome? fun m =>
      m.room_id.map fun rid => (rid, m.room_name, m.room_capacity)
    { subject_id := kg.1.1, faculty_id := kg.1.2.1,
      batch_ids := kg.1.2.2,
      total_students := (kg.1.2.2.map rd.batchPopulation).sum,
      room_id := firstRoom.map (·.1),
      room_name := firstRoom.bind (·.2.1),
      room_capacity := firstRoom.bind (·.2.2),
      meetings := kg.2 }

/-! ## Evaluator result (`evaluator.py`, `main`, lines 170-179) -/

/-- The dictionary `main` returns (the fields the claims concern). -/
structure EvalResult where
  hard_violations : List Violation
  soft_violations : List Violation
  feasible : Bool
deriving Repr, DecidableEq

/-- Construction of the result: `'feasible': len(hard_violations) == 0`. -/
def mkEvalResult (hv sv : List Violation) : EvalResult :=
  { hard_violations := hv, soft_violations := sv,
    feasible := hv.length == 0 }

/-! ## Continuous-block segmentation as computed by the hard checker

`_check_continuous_for_entity_type` interleaves block tracking with
violation emission; `hardBlocksAux` is that loop's block segmentation
(the `(block_start, block_end)` spans it closes, plus the final
`(block_start, current_end)` span), proved below to generate exactly
its violations. -/

def hardBlocksAux : Int → Int → Row → List Row → List (Int × Int)
  | bs, _be, cur, [] => [(bs, cur.end_minutes)]
  | bs, be, cur, next :: rest =>
    if cur.end_minutes = next.start_minutes then
      hardBlocksAux bs next.end_minutes next rest
    else
      (bs, be) :: hardBlocksAux next.start_minutes next.end_minutes next rest

/-- The hard checker's segmentation of one day's sorted meetings. -/
def hardBlocks : List Row → List (Int × Int)
  | [] => []
  | m :: rest => hardBlocksAux m.start_minutes m.end_minutes m rest

/-! ## Spec-modelled comparison definitions and concrete inputs -/

/-- Modelled from the spec (claim C1): the Excess Gap check as the spec
describes it, with per-entity grouping fanning a merged meeting out to
every id in its set — the grouping the source only uses in the hard
checks. -/
def excessGapFanOutSpec (rows : List Row) (cfg : Config) : List Violation :=
  forEachEntityDay (hardEntityGroups rows (·.all_faculty_ids) (·.faculty_id))
    (excessGapDay cfg.EXCESS_GAP_MINUTES "Faculty") ++
  forEachEntityDay (hardEntityGroups rows (·.all_batch_ids) (·.batch_id))
    (excessGapDay cfg.EXCESS_GAP_MINUTES "Batch")

/-- Modelled from the spec (claim C4): the per-(lecture, lab) meeting
verdict as the claim words it — a violation iff the meetings are not
back-to-back, or back-to-back with two different non-null rooms. -/
def lectureLabClaimCount (lecM labM : Row) : Nat :=
  if ¬ (lecM.end_minutes = labM.start_minutes ∨
        labM.end_minutes = lecM.start_minutes) then 1
  else if lecM.room_id ≠ labM.room_id ∧ lecM.room_id ≠ none ∧
      labM.room_id ≠ none then 1
  else 0

/-- A default-threshold configuration (3h max continuous, 1.5h min
continuous, 30-minute min gap, 30-minute excess-gap threshold, 12:30
Friday cutoff, 5 subjects). -/
def sampleConfig : Config :=
  { MAX_CONTINUOUS_CLASS_MINUTES := 180, MIN_CONTINUOUS_CLASS_MINUTES := 90,
    MIN_GAP_MINUTES := 30, EXCESS_GAP_MINUTES := 30,
    FRIDAY_LATE_MINUTES := 750, MAX_SUBJECTS_PER_FACULTY := 5 }

/-- Empty reference data (no catalog rows, no banned times, and the
never-assigned `external_meetings` attribute). -/
def emptyRefData : RefData :=
  { facultyRows := [], subjectRows := [], roomRows := [], batchRows := [],
    bannedTimes := [], externalMeetings := none }

/-- A template row with every nullable field null. -/
def blankRow : Row :=
  { meeting_id := 0, subject_id := none, subject_name := none,
    faculty_id := none, faculty_name := none, all_faculty_ids := none,
    all_faculty_names := none, batch_id := none, all_batch_ids := none,
    room_id := none, room_name := none, all_room_ids := none,
    room_capacity := none, day := "", start_minutes := 0,
    end_minutes := 0 }

/-- C1 input: a merged meeting carrying faculty ids {1, 2}, canonical
first choice 1, Monday 08:00-09:00. -/
def c1mergedRow : Row :=
  { blankRow with
    meeting_id := 1
    subject_id := some 1
    subject_name := some "S1"
    faculty_id := some 1
    faculty_name := some "A"
    all_faculty_ids := some [1, 2]
    all_faculty_names := some ["A", "B"]
    all_batch_ids := some []
    all_room_ids := some []
    day := "MONDAY"
    start_minutes := 480
    end_minutes := 540 }

/-- C1 input: an ordinary meeting of faculty 2, Monday 10:00-11:00. -/
def c1otherRow : Row :=
  { blankRow with
    meeting_id := 2
    subject_id := some 1
    subject_name := some "S1"
    faculty_id := some 2
    faculty_name := some "B"
    day := "MONDAY"
    start_minutes := 600
    end_minutes := 660 }

/-- C3 input: Monday meeting of section (subject 9, faculty 1,
batch {5}). -/
def c3rowMon : Row :=
  { blankRow with
    meeting_id := 1
    subject_id := some 9
    subject_name := some "S9"
    faculty_id := some 1
    faculty_name := some "A"
    batch_id := some 5
    day := "MONDAY"
    start_minutes := 480
    end_minutes := 540 }

/-- C3 input: Wednesday meeting of the same section. -/
def c3rowWed : Row :=
  { blankRow with
    meeting_id := 2
    subject_id := some 9
    subject_name := some "S9"
    faculty_id := some 1
    faculty_name := some "A"
    batch_id := some 5
    day := "WEDNESDAY"
    start_minutes := 480
    end_minutes := 540 }

/-- C3 reference data: faculty 1 prefers only subject 7. -/
def c3refData : RefData :=
  { facultyRows := [⟨1, "A", 0, 12, 5, [7], []⟩],
    subjectRows := [⟨9, "S9", none⟩, ⟨7, "S7", none⟩], roomRows := [],
    batchRows := [⟨5, "B5", 30⟩], bannedTimes := [],
    externalMeetings := none }

/-- The single violation C3's input produces. -/
def c3viol : Violation :=
  { kind := "Non-Preferred Subject", entityType := "Faculty",
    entityId := some 1, subjectId := some 9, day := none, magnitude := 2 }

/-- C4 input: lecture meeting Monday 08:00-09:00, no room assigned. -/
def c4lecMeeting : Row :=
  { blankRow with
    meeting_id := 1
    subject_id := some 1
    subject_name := some "L"
    faculty_id := some 1
    batch_id := some 4
    day := "MONDAY"
    start_minutes := 480
    end_minutes := 540 }

/-- C4 input: lab meeting Monday 09:00-10:00, back-to-back with the
lecture, no room assigned. -/
def c4labMeeting : Row :=
  { blankRow with
    meeting_id := 2
    subject_id := some 2
    subject_name := some "LB"
    faculty_id := some 1
    batch_id := some 4
    day := "MONDAY"
    start_minutes := 540
    end_minutes := 600 }

/-- C4 input: the valid lecture-lab pair holding those meetings. -/
def c4pair : LLPair where
  lecture :=
    { subject_id := 1
      faculty_id := some 1
      batch_ids := [4]
      total_students := 30
      room_id := none
      room_name := none
      room_capacity := none
      meetings := [c4lecMeeting] }
  lab :=
    { subject_id := 2
      faculty_id := some 1
      batch_ids := [4]
      total_students := 30
      room_id := none
      room_name := none
      room_capacity := none
      meetings := [c4labMeeting] }

/-- C8 input: a fully resolved meeting. -/
def c8row : Row :=
  { blankRow with
    meeting_id := 1
    subject_id := some 3
    subject_name := some "S3"
    faculty_id := some 1
    faculty_name := some "A"
    batch_id := some 4
    room_id := some 10
    room_name := some "R10"
    room_capacity := some 40
    day := "MONDAY"
    start_minutes := 480
    end_minutes := 540 }

/-- C8 reference data. -/
def c8refData : RefData :=
  { facultyRows := [⟨1, "A", 0, 12, 5, [], []⟩],
    subjectRows := [⟨3, "S3", none⟩], roomRows := [⟨10, "R10", 40⟩],
    batchRows := [⟨4, "B4", 25⟩], bannedTimes := [],
    externalMeetings := none }

/-- The section `build_sections` forms from `c8row`. -/
def c8section : Section :=
  { subject_id := 3, faculty_id := some 1, batch_ids := [4],
    total_students := 25, room_id := some 10, room_name := some "R10",
    room_capacity := some 40, meetings := [c8row] }

/-- C9 input: a degenerate meeting whose end precedes its start
(possible when a time string fails to parse and becomes 0, or times are
reversed in the CSV — the loader keeps such rows). -/
def c9degRow : Row :=
  { blankRow with
    meeting_id := 1
    subject_id := some 1
    subject_name := some "S1"
    faculty_id := some 1
    day := "MONDAY"
    start_minutes := 600
    end_minutes := 540 }

/-- C9 input: a well-formed meeting of the same faculty overlapping the
degenerate one's span. -/
def c9otherRow : Row :=
  { blankRow with
    meeting_id := 2
    subject_id := some 1
    subject_name := some "S1"
    faculty_id := some 1
    day := "MONDAY"
    start_minutes := 500
    end_minutes := 700 }

/-- C9 witness input: two well-formed overlapping meetings, faculty 1,
Monday 08:00-10:00 and 09:00-11:00. -/
def c9wfRow1 : Row :=
  { blankRow with
    meeting_id := 1
    subject_id := some 1
    subject_name := some "S1"
    faculty_id := some 1
    day := "MONDAY"
    start_minutes := 480
    end_minutes := 600 }

/-- C9 witness input: the second overlapping meeting. -/
def c9wfRow2 : Row :=
  { blankRow with
    meeting_id := 2
    subject_id := some 1
    subject_name := some "S1"
    faculty_id := some 1
    day := "MONDAY"
    start_minutes := 540
    end_minutes := 660 }

/-- The faculty time conflict those two meetings produce (60 minutes of
overlap). -/
def c9witnessViol : Violation :=
  { kind := "Faculty Time Conflict", entityType := "Faculty",
    entityId := some 1, subjectId := none, day := some "MONDAY",
    magnitude := 60 }

/-! ## Grouping lemmas -/

section GroupingLemmas

variable {κ α : Type} [DecidableEq κ]

theorem lookupGroup_addGroup (gs : List (κ × List α)) (k : κ) (a : α)
    (k' : κ) :
    lookupGroup (addGroup gs k a) k' =
      if k' = k then lookupGroup gs k' ++ [a] else lookupGroup gs k' := by
  induction gs with
  | nil =>
    simp only [addGroup, lookupGroup]
    by_cases h : k = k'
    · subst h; simp [lookupGroup]
    · simp [lookupGroup, h, Ne.symm h]
  | cons hd tl ih =>
    obtain ⟨k0, g0⟩ := hd
    by_cases h0 : k0 = k
    · subst h0
      by_cases h1 : k0 = k'
      · subst h1; simp [addGroup, lookupGroup]
      · simp [addGroup, lookupGroup, h1, Ne.symm h1]
    · by_cases h1 : k0 = k'
      · subst h1
        have : ¬ (k0 = k) := h0
        simp [addGroup, lookupGroup, this, Ne.symm h0]
      · simp [addGroup, lookupGroup, h0, h1, ih]

theorem lookupGroup_foldKeys (keys : List κ) (gs : List (κ × List α))
    (a : α) (k : κ) :
    lookupGroup (keys.foldl (fun gs' k' => addGroup gs' k' a) gs) k =
      lookupGroup gs k ++
        List.replicate (keys.countP (fun x => decide (x = k))) a := by
  induction keys generalizing gs with
  | nil => simp
  | cons k0 ks ih =>
    by_cases h : k = k0
    · subst h
      have hc : (k :: ks).countP (fun x => decide (x = k)) =
          ks.countP (fun x => decide (x = k)) + 1 := by
        simp [List.countP_cons]
      rw [List.foldl_cons, ih, lookupGroup_addGroup, if_pos rfl, hc,
        List.append_assoc, List.singleton_append, ← List.replicate_succ]
    · have hc : (k0 :: ks).countP (fun x => decide (x = k)) =
          ks.countP (fun x => decide (x = k)) := by
        simp [List.countP_cons, Ne.symm h]
      rw [List.foldl_cons, ih, lookupGroup_addGroup, if_neg h, hc]

theorem lookupGroup_groupByKeys (keysOf : α → List κ) (l : List α)
    (k : κ) :
    lookupGroup (groupByKeys keysOf l) k =
      l.flatMap (fun a =>
        List.replicate ((keysOf a).countP (fun x => decide (x = k))) a) := by
  suffices h : ∀ gs : List (κ × List α),
      lookupGroup
        (l.foldl (fun gs' a => (keysOf a).foldl
          (fun gs'' k' => addGroup gs'' k' a) gs') gs) k =
        lookupGroup gs k ++ l.flatMap (fun a =>
          List.replicate ((keysOf a).countP (fun x => decide (x = k))) a) by
    simpa [groupByKeys, lookupGroup] using h []
  induction l with
  | nil => simp
  | cons a l ih =>
    intro gs
    simp [List.foldl_cons, ih, lookupGroup_foldKeys, List.flatMap_cons]

theorem mem_lookupGroup_groupByKeys (keysOf : α → List κ) (l : List α)
    (k : κ) (a : α) :
    a ∈ lookupGroup (groupByKeys keysOf l) k ↔ a ∈ l ∧ k ∈ keysOf a := by
  rw [lookupGroup_groupByKeys]
  simp only [List.mem_flatMap, List.mem_replicate, ne_eq]
  constructor
  · rintro ⟨b, hb, hcount, rfl⟩
    refine ⟨hb, ?_⟩
    have hpos : 0 < (keysOf a).countP (fun x => decide (x = k)) :=
      Nat.pos_of_ne_zero hcount
    rcases List.countP_pos_iff.mp hpos with ⟨x, hx, hdx⟩
    have hxk : x = k := of_decide_eq_true hdx
    exact hxk ▸ hx
  · rintro ⟨ha, hk⟩
    refine ⟨a, ha, ?_, rfl⟩
    have : 0 < (keysOf a).countP (fun x => decide (x = k)) :=
      List.countP_pos_iff.mpr ⟨k, hk, by simp⟩
    omega

theorem lookupGroup_groupByKeys_single (keysOf : α → List κ)
    (l : List α) (k : κ)
    (hsing : ∀ a ∈ l, (keysOf a).countP (fun x => decide (x = k)) ≤ 1) :
    lookupGroup (groupByKeys keysOf l) k =
      l.filter (fun a => decide (k ∈ keysOf a)) := by
  rw [lookupGroup_groupByKeys]
  induction l with
  | nil => simp
  | cons a l ih =>
    have ha := hsing a (List.mem_cons_self a l)
    have ih' := ih (fun b hb => hsing b (List.mem_cons_of_mem a hb))
    simp only [List.flatMap_cons, List.filter_cons, ih']
    by_cases hk : k ∈ keysOf a
    · have hpos : 0 < (keysOf a).countP (fun x => decide (x = k)) :=
        List.countP_pos_iff.mpr ⟨k, hk, by simp⟩
      have : (keysOf a).countP (fun x => decide (x = k)) = 1 := by omega
      simp [this, hk]
    · have : (keysOf a).countP (fun x => decide (x = k)) = 0 := by
        rw [List.countP_eq_zero]
        intro x hx
        simp only [decide_eq_true_eq]
        intro hxe; exact hk (hxe ▸ hx)
      simp [this, hk]

/-- The keys of the accumulated group list after an `addGroup`. -/
theorem addGroup_keys (gs : List (κ × List α)) (k : κ) (a : α) :
    (addGroup gs k a).map Prod.fst =
      if k ∈ gs.map Prod.fst then gs.map Prod.fst
      else gs.map Prod.fst ++ [k] := by
  induction gs with
  | nil => simp [addGroup]
  | cons hd tl ih =>
    obtain ⟨k0, g0⟩ := hd
    by_cases h0 : k0 = k
    · subst h0; simp [addGroup]
    · have hne : k ≠ k0 := fun h => h0 h.symm
      simp only [addGroup, if_neg h0, List.map_cons, List.mem_cons, ih]
      by_cases hm : k ∈ tl.map Prod.fst
      · simp [hm, hne]
      · simp [hm, hne]

theorem addGroup_keys_nodup {gs : List (κ × List α)} (k : κ) (a : α)
    (h : (gs.map Prod.fst).Nodup) :
    ((addGroup gs k a).map Prod.fst).Nodup := by
  rw [addGroup_keys]
  by_cases hm : k ∈ gs.map Prod.fst
  · simpa [hm]
  · rw [if_neg hm, List.nodup_append]
    refine ⟨h, List.nodup_singleton k, ?_⟩
    intro x hx hk
    rw [List.mem_singleton] at hk
    exact hm (hk ▸ hx)

theorem groupByKeys_keys_nodup (keysOf : α → List κ) (l : List α) :
    ((groupByKeys keysOf l).map Prod.fst).Nodup := by
  suffices h : ∀ gs : List (κ × List α), (gs.map Prod.fst).Nodup →
      ((l.foldl (fun gs' a => (keysOf a).foldl
        (fun gs'' k' => addGroup gs'' k' a) gs') gs).map Prod.fst).Nodup by
    exact h [] (by simp)
  induction l with
  | nil => intro gs hgs; simpa using hgs
  | cons a l ih =>
    intro gs hgs
    simp only [List.foldl_cons]
    apply ih
    clear ih
    induction keysOf a generalizing gs with
    | nil => simpa using hgs
    | cons k0 ks ihk =>
      simp only [List.foldl_cons]
      exact ihk _ (addGroup_keys_nodup k0 a hgs)

theorem addGroup_groups_ne_nil {gs : List (κ × List α)} (k : κ) (a : α)
    (h : ∀ p ∈ gs, p.2 ≠ []) :
    ∀ p ∈ addGroup gs k a, p.2 ≠ [] := by
  induction gs with
  | nil =>
    intro p hp
    simp only [addGroup, List.mem_singleton] at hp
    rw [hp]
    simp
  | cons hd tl ih =>
    obtain ⟨k0, g0⟩ := hd
    intro p hp
    by_cases h0 : k0 = k
    · subst h0
      simp only [addGroup, if_pos rfl] at hp
      rcases List.mem_cons.mp hp with hp | hp
      · rw [hp]; simp
      · exact h p (List.mem_cons_of_mem _ hp)
    · simp only [addGroup, if_neg h0] at hp
      rcases List.mem_cons.mp hp with hp | hp
      · rw [hp]
        exact h (k0, g0) (List.mem_cons_self _ _)
      · exact ih (fun q hq => h q (List.mem_cons_of_mem _ hq)) p hp

theorem groupByKeys_groups_ne_nil (keysOf : α → List κ) (l : List α) :
    ∀ p ∈ groupByKeys keysOf l, p.2 ≠ [] := by
  suffices h : ∀ gs : List (κ × List α), (∀ p ∈ gs, p.2 ≠ []) →
      ∀ p ∈ l.foldl (fun gs' a => (keysOf a).foldl
        (fun gs'' k' => addGroup gs'' k' a) gs') gs, p.2 ≠ [] by
    exact h [] (by simp)
  induction l with
  | nil => intro gs hgs; simpa using hgs
  | cons a l ih =>
    intro gs hgs
    simp only [List.foldl_cons]
    apply ih
    clear ih
    induction keysOf a generalizing gs with
    | nil => simpa using hgs
    | cons k0 ks ihk =>
      simp only [List.foldl_cons]
      exact ihk _ (addGroup_groups_ne_nil k0 a hgs)

/-- In a key-nodup group list, a member pair is what lookup returns. -/
theorem lookupGroup_eq_of_mem {gs : List (κ × List α)}
    (hnd : (gs.map Prod.fst).Nodup) {k : κ} {g : List α}
    (hm : (k, g) ∈ gs) : lookupGroup gs k = g := by
  induction gs with
  | nil => cases hm
  | cons hd tl ih =>
    obtain ⟨k0, g0⟩ := hd
    simp only [List.map_cons, List.nodup_cons] at hnd
    rcases List.mem_cons.mp hm with heq | hm'
    · cases heq
      simp [lookupGroup]
    · have hk0 : ¬ (k0 = k) := by
        rintro rfl
        exact hnd.1 (List.mem_map.mpr ⟨(k0, g), hm', rfl⟩)
      simp only [lookupGroup, if_neg hk0]
      exact ih hnd.2 hm'

/-- A member pair of `groupByKeys` has the lookup of its key as group,
and every element of that group is an element of `l` carrying the key. -/
theorem mem_groupByKeys_char (keysOf : α → List κ) (l : List α)
    {k : κ} {g : List α} (h : (k, g) ∈ groupByKeys keysOf l) :
    g = lookupGroup (groupByKeys keysOf l) k ∧ g ≠ [] ∧
      ∀ a ∈ g, a ∈ l ∧ k ∈ keysOf a := by
  have h1 := lookupGroup_eq_of_mem (groupByKeys_keys_nodup keysOf l) h
  refine ⟨h1.symm, groupByKeys_groups_ne_nil keysOf l _ h, ?_⟩
  intro a ha
  exact (mem_lookupGroup_groupByKeys keysOf l k a).mp (h1 ▸ ha)

end GroupingLemmas

/-! ## Sorting lemmas -/

theorem mem_insertByStart (m a : Row) (l : List Row) :
    a ∈ insertByStart m l ↔ a = m ∨ a ∈ l := by
  induction l with
  | nil => simp [insertByStart]
  | cons x xs ih =>
    by_cases h : x.start_minutes ≤ m.start_minutes
    · simp [insertByStart, h, ih]
      tauto
    · simp [insertByStart, h]

theorem mem_sortByStart (l : List Row) (a : Row) :
    a ∈ sortByStart l ↔ a ∈ l := by
  suffices h : ∀ acc : List Row,
      a ∈ l.foldl (fun acc' m => insertByStart m acc') acc ↔
        a ∈ acc ∨ a ∈ l by
    simpa [sortByStart] using h []
  induction l with
  | nil => simp
  | cons x xs ih =>
    intro acc
    simp [List.foldl_cons, ih, mem_insertByStart]
    tauto

/-! ## Interval algebra lemmas -/

theorem checkOverlap_iff (s1 e1 s2 e2 : Int) :
    checkOverlap s1 e1 s2 e2 = true ↔ s1 < e2 ∧ s2 < e1 := by
  simp [checkOverlap]

theorem overlapDuration_pos {s1 e1 s2 e2 : Int} (h1 : s1 < e1)
    (h2 : s2 < e2) (h : checkOverlap s1 e1 s2 e2 = true) :
    0 < calculateOverlapDuration s1 e1 s2 e2 := by
  rcases (checkOverlap_iff s1 e1 s2 e2).mp h with ⟨ha, hb⟩
  have hlt : max s1 s2 < min e1 e2 := by
    rw [max_lt_iff, lt_min_iff, lt_min_iff]
    exact ⟨⟨h1, ha⟩, ⟨hb, h2⟩⟩
  have hpos : 0 < min e1 e2 - max s1 s2 := sub_pos.mpr hlt
  simp only [calculateOverlapDuration]
  exact lt_max_iff.mpr (Or.inr hpos)

/-! ## Dict lemmas: the keys the faculty-load and section-underfill
checks read are never stored by the loaders. -/

theorem loadFacultyData_no_max_hours (r : FacultyCsvRow) :
    dictGetInt (loadFacultyData r) "max_hours_per_week" 0 = 0 := rfl

theorem loadFacultyData_no_min_hours (r : FacultyCsvRow) :
    dictGetInt (loadFacultyData r) "min_hours_per_week" 0 = 0 := rfl

theorem facultyDict_no_max_hours (rd : RefData) (fid : Nat) :
    dictGetInt (rd.facultyDict fid) "max_hours_per_week" 0 = 0 := by
  unfold RefData.facultyDict
  cases rd.facultyRows.find? (fun r => r.faculty_id = fid) with
  | none => rfl
  | some r => rfl

theorem roomDict_no_min_capacity (rd : RefData) (rid : Nat) :
    dictGetInt (rd.roomDict rid) "min_capacity" 0 = 0 := by
  unfold RefData.roomDict
  cases rd.roomRows.find? (fun r => r.room_id = rid) with
  | none => rfl
  | some r => rfl

/-- Source `check_faculty_overload` never emits a violation: the threshold key
is absent from every loader-built faculty dict. -/
theorem checkFacultyOverload_eq_nil (rows : List Row) (rd : RefData) :
    checkFacultyOverload rows rd = [] := by
  unfold checkFacultyOverload
  rw [List.filterMap_eq_nil_iff]
  intro ft _
  simp [facultyDict_no_max_hours]

/-- Source `check_faculty_underfill` never emits a violation, for the same
reason. -/
theorem checkFacultyUnderfill_eq_nil (rows : List Row) (rd : RefData) :
    checkFacultyUnderfill rows rd = [] := by
  unfold checkFacultyUnderfill
  rw [List.filterMap_eq_nil_iff]
  intro r _
  simp [loadFacultyData_no_min_hours]

/-- Source `check_section_underfill` never emits a violation: room dicts store
no `min_capacity` key, and 0 is falsy in the source's guard. -/
theorem checkSectionUnderfill_eq_nil (sections : List Section)
    (rd : RefData) :
    checkSectionUnderfill sections rd = [] := by
  unfold checkSectionUnderfill
  rw [List.filterMap_eq_nil_iff]
  intro s _
  cases s.room_id with
  | none => rfl
  | some rid => simp [roomDict_no_min_capacity]

/-! ## Membership plumbing through the per-entity skeleton -/

theorem mem_forEachEntityDay {gs : List (Nat × List Row)}
    {f : Nat → String → List Row → List Violation} {v : Violation}
    (h : v ∈ forEachEntityDay gs f) :
    ∃ p ∈ gs, ∃ q ∈ dayGroups p.2, v ∈ f p.1 q.1 q.2 := by
  simp only [forEachEntityDay, List.mem_flatMap] at h
  rcases h with ⟨p, hp, q, hq1, hq2⟩
  exact ⟨p, hp, q, hq1, hq2⟩

theorem mem_rows_of_entityDay {rows : List Row} {keysOf : Row → List Nat}
    {p : Nat × List Row} {q : String × List Row}
    (hp : p ∈ groupByKeys keysOf rows) (hq : q ∈ dayGroups p.2)
    {m : Row} (hm : m ∈ q.2) : m ∈ rows := by
  have h1 := (mem_groupByKeys_char _ p.2 hq).2.2 m hm
  exact ((mem_groupByKeys_char keysOf rows hp).2.2 m h1.1).1

theorem mem_sorted_rows {rows : List Row} {keysOf : Row → List Nat}
    {p : Nat × List Row} {q : String × List Row}
    (hp : p ∈ groupByKeys keysOf rows) (hq : q ∈ dayGroups p.2)
    {m : Row} (hm : m ∈ sortByStart q.2) : m ∈ rows :=
  mem_rows_of_entityDay hp hq ((mem_sortByStart q.2 m).mp hm)

/-! ## Per-rule facts feeding the positivity statements -/

theorem mem_pairConflictViols {kind etype : String} {eid : Nat}
    {d : String} {l : List Row} {v : Violation}
    (h : v ∈ pairConflictViols kind etype eid d l) :
    ∃ m1 ∈ l, ∃ m2 ∈ l,
      checkOverlap m1.start_minutes m1.end_minutes
        m2.start_minutes m2.end_minutes = true ∧
      v.magnitude = calculateOverlapDuration m1.start_minutes
        m1.end_minutes m2.start_minutes m2.end_minutes := by
  induction l with
  | nil => cases h
  | cons m1 rest ih =>
    rw [pairConflictViols] at h
    rcases List.mem_append.mp h with h | h
    · rcases List.mem_filterMap.mp h with ⟨m2, hm2, hv⟩
      split at hv
      · rename_i hov
        cases hv
        exact ⟨m1, List.mem_cons_self _ _, m2,
          List.mem_cons_of_mem _ hm2, hov, rfl⟩
      · cases hv
    · rcases ih h with ⟨a, ha, b, hb, hc⟩
      exact ⟨a, List.mem_cons_of_mem _ ha, b, List.mem_cons_of_mem _ hb, hc⟩

theorem hardContinuousAux_pos {maxM : Int} {etype : String} {eid : Nat}
    {d : String} :
    ∀ (rest : List Row) (bs be : Int) (cur : Row) (v : Violation),
      v ∈ hardContinuousAux maxM etype eid d bs be cur rest →
      0 < v.magnitude := by
  intro rest
  induction rest with
  | nil =>
    intro bs be cur v h
    rw [hardContinuousAux] at h
    split at h
    · rename_i hgt
      rw [List.mem_singleton] at h
      rw [h]
      simp only []
      omega
    · cases h
  | cons next rest ih =>
    intro bs be cur v h
    rw [hardContinuousAux] at h
    split at h
    · exact ih bs next.end_minutes next v h
    · rcases List.mem_append.mp h with h | h
      · split at h
        · rename_i hgt
          rw [List.mem_singleton] at h
          rw [h]
          simp only []
          omega
        · cases h
      · exact ih next.start_minutes next.end_minutes next v h

theorem gapViolsAux_pos {minGap : Int} {etype : String} {eid : Nat}
    {d : String} :
    ∀ (l : List Row) (v : Violation),
      v ∈ gapViolsAux minGap etype eid d l → 0 < v.magnitude := by
  intro l
  induction l with
  | nil => intro v h; cases h
  | cons m1 rest ih =>
    intro v h
    cases rest with
    | nil => cases h
    | cons m2 rest' =>
      rw [gapViolsAux] at h
      rcases List.mem_append.mp h with h | h
      · split at h
        · rename_i hc
          rw [List.mem_singleton] at h
          rw [h]
          simp only []
          omega
        · cases h
      · exact ih v h

theorem excessGapAux_pos {threshold : Int} {etype : String} {eid : Nat}
    {d : String} :
    ∀ (l : List Row) (v : Violation),
      v ∈ excessGapAux threshold etype eid d l → 0 < v.magnitude := by
  intro l
  induction l with
  | nil => intro v h; cases h
  | cons m1 rest ih =>
    intro v h
    cases rest with
    | nil => cases h
    | cons m2 rest' =>
      rw [excessGapAux] at h
      rcases List.mem_append.mp h with h | h
      · split at h
        · rename_i hc
          rw [List.mem_singleton] at h
          rw [h]
          simp only []
          omega
        · cases h
      · exact ih v h

theorem minContinuousDay_pos {minM : Int} {etype : String} {eid : Nat}
    {d : String} {l : List Row} {v : Violation}
    (h : v ∈ minContinuousDay minM etype eid d l) : 0 < v.magnitude := by
  rcases List.mem_filterMap.mp h with ⟨bk, _, hv⟩
  simp only [gt_iff_lt] at hv
  split at hv
  · rename_i hc
    cases hv
    simp only []
    omega
  · cases hv

theorem lectureLabPairViols_magnitude {d : String} {lecM labM : Row}
    {v : Violation} (h : v ∈ lectureLabPairViols d lecM labM) :
    v.magnitude = 1 := by
  rw [lectureLabPairViols] at h
  split at h
  · rw [List.mem_singleton] at h; rw [h]
  · split at h
    · rw [List.mem_singleton] at h; rw [h]
    · cases h

/-! ## Check-level magnitude positivity -/

theorem entityDay_conflict_pos {rows : List Row} {keysOf : Row → List Nat}
    {kind etype : String}
    (hwf : ∀ r ∈ rows, r.start_minutes < r.end_minutes) {v : Violation}
    (h : v ∈ forEachEntityDay (groupByKeys keysOf rows)
      (timeConflictDay kind etype)) :
    0 < v.magnitude := by
  rcases mem_forEachEntityDay h with ⟨p, hp, q, hq, hv⟩
  rcases mem_pairConflictViols hv with ⟨m1, hm1, m2, hm2, hov, hmag⟩
  have h1 := hwf m1 (mem_sorted_rows hp hq hm1)
  have h2 := hwf m2 (mem_sorted_rows hp hq hm2)
  rw [hmag]
  exact overlapDuration_pos h1 h2 hov

theorem maxContinuousDay_pos {maxM : Int} {etype : String} {eid : Nat}
    {d : String} {l : List Row} {v : Violation}
    (h : v ∈ maxContinuousDay maxM etype eid d l) : 0 < v.magnitude := by
  unfold maxContinuousDay at h
  cases hs : sortByStart l with
  | nil => rw [hs] at h; cases h
  | cons m rest =>
    rw [hs] at h
    exact hardContinuousAux_pos rest m.start_minutes m.end_minutes m v h

theorem checkRoomCapacity_pos {sections : List Section} {v : Violation}
    (h : v ∈ checkRoomCapacity sections) : 0 < v.magnitude := by
  rcases List.mem_filterMap.mp h with ⟨s, _, hv⟩
  split at hv
  · rename_i rid cap heq1
    split at hv
    · rename_i hgt
      cases hv
      simp only []
      omega
    · cases hv
  · cases hv

theorem checkBannedTimes_pos {rows : List Row} {banned : List BannedSlot}
    (hwr : ∀ r ∈ rows, r.start_minutes < r.end_minutes)
    (hwb : ∀ b ∈ banned, b.start_minutes < b.end_minutes) {v : Violation}
    (h : v ∈ checkBannedTimes rows banned) : 0 < v.magnitude := by
  rcases List.mem_flatMap.mp h with ⟨b, hb, hm'⟩
  rcases List.mem_filterMap.mp hm' with ⟨m, hm, hv⟩
  split at hv
  · cases hv
  · split at hv
    · cases hv
    · split at hv
      · rename_i hov
        cases hv
        simp only []
        exact overlapDuration_pos (hwr m hm) (hwb b hb) hov
      · cases hv

theorem checkLectureLabSeparation_magnitude {pairs : List LLPair}
    {v : Violation} (h : v ∈ checkLectureLabSeparation pairs) :
    v.magnitude = 1 := by
  unfold checkLectureLabSeparation at h
  rcases List.mem_flatMap.mp h with ⟨p, _, h⟩
  rcases List.mem_flatMap.mp h with ⟨q, _, h⟩
  rcases List.mem_flatMap.mp h with ⟨lecM, _, h⟩
  rcases List.mem_flatMap.mp h with ⟨labM, _, h⟩
  exact lectureLabPairViols_magnitude h

theorem checkSectionOverfill_pos {sections : List Section} {rd : RefData}
    {v : Violation} (h : v ∈ checkSectionOverfill sections rd) :
    0 < v.magnitude := by
  rcases List.mem_filterMap.mp h with ⟨s, _, hv⟩
  split at hv
  · cases hv
  · simp only [] at hv
    split at hv
    · rename_i hc
      cases hv
      simp only []
      omega
    · cases hv

theorem checkMinContinuousClass_pos {rows : List Row} {cfg : Config}
    {v : Violation} (h : v ∈ checkMinContinuousClass rows cfg) :
    0 < v.magnitude := by
  unfold checkMinContinuousClass at h
  rcases List.mem_append.mp h with h | h <;>
  · rcases mem_forEachEntityDay h with ⟨p, _, q, _, hv⟩
    exact minContinuousDay_pos hv

theorem checkExcessGap_pos {rows : List Row} {cfg : Config}
    {v : Violation} (h : v ∈ checkExcessGap rows cfg) :
    0 < v.magnitude := by
  unfold checkExcessGap at h
  rcases List.mem_append.mp h with h | h <;>
  · rcases mem_forEachEntityDay h with ⟨p, _, q, _, hv⟩
    exact excessGapAux_pos (sortByStart q.2) v hv

theorem checkMinGap_pos {rows : List Row} {cfg : Config}
    {v : Violation} (h : v ∈ checkMinGap rows cfg) : 0 < v.magnitude := by
  unfold checkMinGap at h
  rcases List.mem_append.mp h with h | h <;>
  · rcases mem_forEachEntityDay h with ⟨p, _, q, _, hv⟩
    exact gapViolsAux_pos (sortByStart q.2) v hv

theorem checkMaxContinuousClass_pos {rows : List Row} {cfg : Config}
    {v : Violation} (h : v ∈ checkMaxContinuousClass rows cfg) :
    0 < v.magnitude := by
  unfold checkMaxContinuousClass at h
  rcases List.mem_append.mp h with h | h <;>
  · rcases mem_forEachEntityDay h with ⟨p, _, q, _, hv⟩
    exact maxContinuousDay_pos hv

theorem checkNonPreferredSubject_pos {rows : List Row} {rd : RefData}
    {v : Violation} (h : v ∈ checkNonPreferredSubject rows rd) :
    0 < v.magnitude := by
  rcases List.mem_map.mp h with ⟨pg, hpg, hv⟩
  have hne := (mem_groupByKeys_char _ rows hpg).2.1
  rw [← hv]
  simp only []
  have hlen : 0 < pg.2.length := List.length_pos.mpr hne
  omega

theorem checkFridayLateClasses_pos {rows : List Row} {cfg : Config}
    {v : Violation} (h : v ∈ checkFridayLateClasses rows cfg) :
    0 < v.magnitude := by
  rcases List.mem_filterMap.mp h with ⟨r, _, hv⟩
  split at hv
  · split at hv
    · rename_i hc
      cases hv
      simp only []
      omega
    · cases hv
  · cases hv

theorem checkExcessSubjects_pos {rows : List Row} {rd : RefData}
    {cfg : Config} {v : Violation}
    (h : v ∈ checkExcessSubjects rows rd cfg) : 0 < v.magnitude := by
  rcases List.mem_filterMap.mp h with ⟨fg, _, hv⟩
  simp only [] at hv
  split at hv
  · rename_i hc
    cases hv
    simp only []
    omega
  · cases hv

theorem checkExternalMeetingConflicts_pos {rows : List Row} {rd : RefData}
    (hwr : ∀ r ∈ rows, r.start_minutes < r.end_minutes)
    (hwe : ∀ es, rd.externalMeetings = some es →
      ∀ e ∈ es, e.start_minutes < e.end_minutes)
    {v : Violation} (h : v ∈ checkExternalMeetingConflicts rows rd) :
    0 < v.magnitude := by
  unfold checkExternalMeetingConflicts at h
  split at h
  · cases h
  · cases h
  · rename_i e es heq
    rcases List.mem_flatMap.mp h with ⟨ext, hext, hm'⟩
    rcases List.mem_filterMap.mp hm' with ⟨m, hm, hv⟩
    split at hv
    · cases hv
    · split at hv
      · cases hv
      · split at hv
        · rename_i hov
          cases hv
          simp only []
          have h1 := hwr m hm
          have h2 := hwe (e :: es) heq ext hext
          have hlt : max m.start_minutes ext.start_minutes <
              min m.end_minutes ext.end_minutes := by
            rw [max_lt_iff, lt_min_iff, lt_min_iff]
            exact ⟨⟨h1, hov.1⟩, ⟨hov.2, h2⟩⟩
          omega
        · cases hv

/-! ## Block segmentation: the hard loop versus its block list -/

theorem hardContinuousAux_eq_blocks (maxM : Int) (etype : String)
    (eid : Nat) (d : String) :
    ∀ (rest : List Row) (bs be : Int) (cur : Row),
      hardContinuousAux maxM etype eid d bs be cur rest =
        (hardBlocksAux bs be cur rest).filterMap (fun bk =>
          if bk.2 - bk.1 > maxM then
            some { kind := "Max Continuous Class Exceeded",
                   entityType := etype, entityId := some eid,
                   subjectId := none, day := some d,
                   magnitude := bk.2 - bk.1 - maxM }
          else none) := by
  intro rest
  induction rest with
  | nil =>
    intro bs be cur
    rw [hardContinuousAux, hardBlocksAux]
    simp only [List.filterMap_cons, List.filterMap_nil]
    by_cases h : cur.end_minutes - bs > maxM
    · simp [h]
    · simp [h]
  | cons next rest ih =>
    intro bs be cur
    rw [hardContinuousAux, hardBlocksAux]
    by_cases h : cur.end_minutes = next.start_minutes
    · rw [if_pos h, if_pos h, ih]
    · rw [if_neg h, if_neg h]
      simp only [List.filterMap_cons]
      by_cases h2 : be - bs > maxM
      · simp [h2, ih]
      · simp [h2, ih]

theorem hardBlocksAux_eq_soft :
    ∀ (rest : List Row) (bs : Int) (cur : Row),
      hardBlocksAux bs cur.end_minutes cur rest =
        softBlocksAux bs cur.end_minutes rest := by
  intro rest
  induction rest with
  | nil => intro bs cur; rfl
  | cons next rest ih =>
    intro bs cur
    rw [hardBlocksAux, softBlocksAux]
    by_cases h : cur.end_minutes = next.start_minutes
    · rw [if_pos h, if_pos h.symm]
      exact ih bs next
    · rw [if_neg h, if_neg (fun hh => h hh.symm)]
      rw [ih next.start_minutes next]

theorem hardBlocks_eq_softBlocks (l : List Row) :
    hardBlocks l = softBlocks l := by
  cases l with
  | nil => rfl
  | cons m rest => exact hardBlocksAux_eq_soft rest m.start_minutes m

/-! ## The gap scan as a zip of adjacent pairs -/

theorem gapViolsAux_eq_zip (minGap : Int) (etype : String) (eid : Nat)
    (d : String) :
    ∀ l : List Row,
      gapViolsAux minGap etype eid d l =
        (l.zip l.tail).filterMap (fun p =>
          if 0 < p.2.start_minutes - p.1.end_minutes ∧
              p.2.start_minutes - p.1.end_minutes < minGap then
            some { kind := "Min Gap Violation", entityType := etype,
                   entityId := some eid, subjectId := none, day := some d,
                   magnitude := minGap -
                     (p.2.start_minutes - p.1.end_minutes) }
          else none) := by
  intro l
  induction l with
  | nil => rfl
  | cons m1 rest ih =>
    cases rest with
    | nil => rfl
    | cons m2 rest' =>
      rw [gapViolsAux]
      rw [List.tail_cons] at ih
      simp only [List.tail_cons, List.zip_cons_cons, List.filterMap_cons]
      by_cases h : m1.end_minutes < m2.start_minutes ∧
          m2.start_minutes - m1.end_minutes < minGap
      · simp [sub_pos, h, ih]
      · simp [sub_pos, h, ih]

/-! ## Claim theorems -/

/-- Claim C1, counterexample.  The claim says the soft Excess Gap check
fans a merged meeting out to every faculty id in its set.  On a schedule
with a merged meeting of faculty {1, 2} (08:00-09:00) and an ordinary
meeting of faculty 2 (10:00-11:00), the actual soft check reports no
excess gap at all, while the fanned-out grouping the claim (and spec)
describes would report the 60-minute Monday gap of faculty 2. -/
theorem c1_counterexample :
    checkExcessGap [c1mergedRow, c1otherRow] sampleConfig = [] ∧
    excessGapFanOutSpec [c1mergedRow, c1otherRow] sampleConfig ≠ [] := by
  decide

/-- Claim C1, amended.  The hard per-entity checks' grouping assigns a
merged meeting to every id in its fan-out list, but the soft Min
Continuous and Excess Gap checks' grouping assigns a meeting only to
its canonical single `faculty_id` / `batch_id`. -/
theorem c1_amended_grouping_semantics :
    (∀ (rows : List Row) (r : Row) (k : Nat), r ∈ rows →
      k ∈ idsForGrouping r.all_faculty_ids r.faculty_id →
      r ∈ lookupGroup
        (hardEntityGroups rows (·.all_faculty_ids) (·.faculty_id)) k) ∧
    (∀ (rows : List Row) (r : Row) (k : Nat),
      r ∈ lookupGroup (softEntityGroups rows (·.faculty_id)) k →
      r.faculty_id = some k) ∧
    (∀ (rows : List Row) (r : Row) (k : Nat),
      r ∈ lookupGroup (softEntityGroups rows (·.batch_id)) k →
      r.batch_id = some k) := by
  refine ⟨?_, ?_, ?_⟩
  · intro rows r k hr hk
    unfold hardEntityGroups
    exact (mem_lookupGroup_groupByKeys _ rows k r).mpr ⟨hr, hk⟩
  · intro rows r k h
    unfold softEntityGroups at h
    have h2 := ((mem_lookupGroup_groupByKeys _ rows k r).mp h).2
    cases hf : r.faculty_id with
    | none => simp [singleIdKeys, hf] at h2
    | some i =>
      simp [singleIdKeys, hf] at h2
      rw [h2]
  · intro rows r k h
    unfold softEntityGroups at h
    have h2 := ((mem_lookupGroup_groupByKeys _ rows k r).mp h).2
    cases hf : r.batch_id with
    | none => simp [singleIdKeys, hf] at h2
    | some i =>
      simp [singleIdKeys, hf] at h2
      rw [h2]

/-- Claim C1, witness. -/
theorem c1_amended_witness :
    c1mergedRow ∈ lookupGroup (hardEntityGroups [c1mergedRow, c1otherRow]
      (·.all_faculty_ids) (·.faculty_id)) 2 ∧
    c1otherRow.faculty_id = some 2 :=
  ⟨c1_amended_grouping_semantics.1 [c1mergedRow, c1otherRow] c1mergedRow 2
      (by decide) (by decide),
   c1_amended_grouping_semantics.2.1 [c1mergedRow, c1otherRow] c1otherRow 2
      (by decide)⟩

/-- Claim C2.  The Faculty Overload / Underfill checks never emit any
violation, whatever the schedule and the loaded faculty table: they
read the keys `max_hours_per_week` / `min_hours_per_week`, which
`_load_faculty` never stores (it stores `max_load` / `min_load`), so
the thresholds are always 0 and the `> 0` guard never passes. -/
theorem c2_faculty_load_checks_never_fire :
    ∀ (rows : List Row) (rd : RefData),
      checkFacultyOverload rows rd = [] ∧
      checkFacultyUnderfill rows rd = [] :=
  fun rows rd =>
    ⟨checkFacultyOverload_eq_nil rows rd, checkFacultyUnderfill_eq_nil rows rd⟩

/-- Claim C3, counterexample.  Faculty 1 prefers only subject 7 and
teaches one Section of subject 9 that meets twice (Monday and
Wednesday).  The check emits magnitude 2 — one per meeting row — while
the number of distinct Sections of subject 9 taught by faculty 1 is 1,
so magnitude is not the section count the claim states. -/
theorem c3_counterexample :
    (checkNonPreferredSubject [c3rowMon, c3rowWed] c3refData).map
      (·.magnitude) = [2] ∧
    ((buildSections [c3rowMon, c3rowWed] c3refData).filter
      (fun s => s.subject_id == 9 && s.faculty_id == some 1)).length
      = 1 := by
  decide

/-- A row qualifies for at most one (faculty, subject) key. -/
theorem nonPreferredKeys_length_le (rd : RefData) (r : Row) :
    (nonPreferredKeys rd r).length ≤ 1 := by
  unfold nonPreferredKeys
  cases r.faculty_id with
  | none => simp
  | some f' =>
    cases r.subject_id with
    | none => simp
    | some s' =>
      simp only []
      split
      · simp
      · simp

/-- Claim C3, amended.  Each Non-Preferred Subject violation for a
(faculty, subject) pair has magnitude equal to the number of schedule
rows (meetings, not sections) of that faculty and subject that qualify,
and that magnitude is positive. -/
theorem c3_amended_magnitude_counts_meetings :
    ∀ (rows : List Row) (rd : RefData) (v : Violation) (f s : Nat),
      v ∈ checkNonPreferredSubject rows rd →
      v.entityId = some f → v.subjectId = some s →
      v.magnitude = ((rows.filter
        (fun r => nonPreferredKeys rd r = [(f, s)])).length : Int) ∧
      0 < v.magnitude := by
  intro rows rd v f s hv hf hs
  rcases List.mem_map.mp hv with ⟨pg, hpg, hveq⟩
  obtain ⟨hlk, hne, _⟩ :=
    mem_groupByKeys_char (nonPreferredKeys rd) rows hpg
  have hv1 : v.entityId = some pg.1.1 := by rw [← hveq]
  have hv3 : v.magnitude = (pg.2.length : Int) := by rw [← hveq]
  have hv2 : v.subjectId = some pg.1.2 := by rw [← hveq]
  have hkf : pg.1.1 = f := by
    rw [hv1] at hf; exact Option.some.inj hf
  have hks : pg.1.2 = s := by
    rw [hv2] at hs; exact Option.some.inj hs
  have hkey : pg.1 = (f, s) := Prod.ext hkf hks
  have hsing : ∀ r ∈ rows,
      (nonPreferredKeys rd r).countP (fun x => decide (x = (f, s))) ≤ 1 := by
    intro r _
    calc (nonPreferredKeys rd r).countP (fun x => decide (x = (f, s)))
        ≤ (nonPreferredKeys rd r).length := List.countP_le_length _
      _ ≤ 1 := nonPreferredKeys_length_le rd r
  have hfilter := lookupGroup_groupByKeys_single (nonPreferredKeys rd)
    rows (f, s) hsing
  constructor
  · rw [hv3, hlk, hkey, hfilter]
    refine congrArg (fun n : Nat => (n : Int))
      (congrArg List.length (List.filter_congr ?_))
    intro a _
    by_cases hmem : (f, s) ∈ nonPreferredKeys rd a
    · have heq : nonPreferredKeys rd a = [(f, s)] := by
        have hl := nonPreferredKeys_length_le rd a
        cases hnp : nonPreferredKeys rd a with
        | nil => rw [hnp] at hmem; cases hmem
        | cons x xs =>
          rw [hnp] at hmem hl
          cases xs with
          | nil =>
            rw [List.mem_singleton] at hmem
            rw [hmem]
          | cons y ys => simp at hl
      simp [hmem, heq]
    · have hne2 : nonPreferredKeys rd a ≠ [(f, s)] := by
        intro hc
        rw [hc] at hmem
        exact hmem (List.mem_singleton.mpr rfl)
      simp [hmem, hne2]
  · rw [hv3]
    have hpos := List.length_pos.mpr hne
    omega

/-- Claim C3, witness. -/
theorem c3_amended_witness :
    c3viol.magnitude = (([c3rowMon, c3rowWed].filter
      (fun r => nonPreferredKeys c3refData r = [(1, 9)])).length
      : Int) ∧ 0 < c3viol.magnitude :=
  c3_amended_magnitude_counts_meetings [c3rowMon, c3rowWed] c3refData
    c3viol 1 9 (by decide) (by decide) (by decide)

/-- Claim C4, counterexample.  A lecture and a lab meeting that are
back-to-back on the same day with *no* room assigned on either side:
the claim's reading (violation only for two different non-null rooms,
none for identical rooms) predicts no violation, but the code emits
exactly one magnitude-1 violation because its same-room test demands a
non-null shared room id. -/
theorem c4_counterexample :
    (checkLectureLabSeparation [c4pair]).map (·.magnitude) = [1] ∧
    lectureLabClaimCount c4lecMeeting c4labMeeting = 0 := by
  decide

/-- Claim C4, amended.  Per (lecture meeting, lab meeting) pair on a
common day: one magnitude-1 violation when not back-to-back; when
back-to-back, one magnitude-1 violation unless the two meetings carry
the *same non-null* room id (so a null room on either side still
violates); no violation only in the same-non-null-room case. -/
theorem c4_amended_room_test_requires_nonnull :
    ∀ (d : String) (lecM labM : Row),
      (lectureLabPairViols d lecM labM).map (·.magnitude) =
        if lecM.end_minutes = labM.start_minutes ∨
            labM.end_minutes = lecM.start_minutes then
          (if lecM.room_id = labM.room_id ∧ lecM.room_id ≠ none then []
           else [1])
        else [1] := by
  intro d lecM labM
  simp only [lectureLabPairViols]
  by_cases hb : lecM.end_minutes = labM.start_minutes ∨
      labM.end_minutes = lecM.start_minutes
  · by_cases hr : lecM.room_id = labM.room_id ∧ lecM.room_id ≠ none
    · rw [if_neg (not_not_intro hb), if_neg (not_not_intro hr),
        if_pos hb, if_pos hr]
      rfl
    · rw [if_neg (not_not_intro hb), if_pos hr, if_pos hb, if_neg hr]
      rfl
  · rw [if_pos hb, if_neg hb]
    rfl

/-- Claim C5.  `check_overlap` has exactly the half-open semantics
`s1 < e2 ∧ s2 < e1` (touching intervals do not overlap), and
`calculate_overlap_duration` is `max 0 (min e1 e2 - max s1 s2)` —
equal to `min e1 e2 - max s1 s2` for overlapping well-formed intervals
and 0 for touching or disjoint ones. -/
theorem c5_interval_algebra :
    ∀ s1 e1 s2 e2 : Int,
      (checkOverlap s1 e1 s2 e2 = true ↔ s1 < e2 ∧ s2 < e1) ∧
      calculateOverlapDuration s1 e1 s2 e2 =
        max 0 (min e1 e2 - max s1 s2) ∧
      ((s1 = e2 ∨ s2 = e1) → checkOverlap s1 e1 s2 e2 = false) ∧
      (s1 ≤ e1 → s2 ≤ e2 → s1 < e2 → s2 < e1 →
        calculateOverlapDuration s1 e1 s2 e2 = min e1 e2 - max s1 s2) ∧
      (s1 ≤ e1 → s2 ≤ e2 → ¬(s1 < e2 ∧ s2 < e1) →
        calculateOverlapDuration s1 e1 s2 e2 = 0) := by
  intro s1 e1 s2 e2
  refine ⟨checkOverlap_iff s1 e1 s2 e2, rfl, ?_, ?_, ?_⟩
  · intro h
    simp only [checkOverlap, Bool.and_eq_false_iff, decide_eq_false_iff_not,
      not_lt]
    rcases h with h | h
    · left; omega
    · right; omega
  · intro h1 h2 h3 h4
    have hle : max s1 s2 ≤ min e1 e2 := by
      rw [max_le_iff, le_min_iff, le_min_iff]
      exact ⟨⟨h1, le_of_lt h3⟩, ⟨le_of_lt h4, h2⟩⟩
    simp only [calculateOverlapDuration]
    exact max_eq_right (sub_nonneg.mpr hle)
  · intro h1 h2 h3
    have hle : min e1 e2 ≤ max s1 s2 := by
      rcases not_and_or.mp h3 with h | h
      · calc min e1 e2 ≤ e2 := min_le_right _ _
          _ ≤ s1 := le_of_not_lt h
          _ ≤ max s1 s2 := le_max_left _ _
      · calc min e1 e2 ≤ e1 := min_le_left _ _
          _ ≤ s2 := le_of_not_lt h
          _ ≤ max s1 s2 := le_max_right _ _
    simp only [calculateOverlapDuration]
    exact max_eq_left (sub_nonpos.mpr hle)

/-- Claim C5, witness. -/
theorem c5_interval_algebra_witness :
    calculateOverlapDuration 480 540 500 560 = min 540 560 - max 480 500 :=
  (c5_interval_algebra 480 540 500 560).2.2.2.1 (by decide) (by decide)
    (by decide) (by decide)

/-- Claim C6.  One entity's one day of the hard Min Gap check equals the
adjacent-pair scan of the start-sorted meetings: each consecutive pair
whose positive gap falls strictly below the minimum contributes exactly
one violation with magnitude the shortfall, and pairs with zero or
negative gap (touching or overlapping) contribute none. -/
theorem c6_min_gap_day_characterization :
    ∀ (minGap : Int) (etype : String) (eid : Nat) (d : String)
      (l : List Row),
      minGapDay minGap etype eid d l =
        ((sortByStart l).zip (sortByStart l).tail).filterMap (fun p =>
          if 0 < p.2.start_minutes - p.1.end_minutes ∧
              p.2.start_minutes - p.1.end_minutes < minGap then
            some { kind := "Min Gap Violation", entityType := etype,
                   entityId := some eid, subjectId := none, day := some d,
                   magnitude := minGap -
                     (p.2.start_minutes - p.1.end_minutes) }
          else none) := by
  intro minGap etype eid d l
  exact gapViolsAux_eq_zip minGap etype eid d (sortByStart l)

/-- Claim C7.  The evaluation result's `feasible` flag is true exactly
when `check_all_hard_constraints` returned the empty list, and it does
not depend on the soft violation list at all. -/
theorem c7_feasible_iff_no_hard_violations :
    ∀ (rows : List Row) (sections : List Section) (rd : RefData)
      (cfg : Config) (pairs : Option (List LLPair)) (sv : List Violation),
      ((mkEvalResult (checkAllHardConstraints rows sections rd cfg pairs)
          sv).feasible = true ↔
        checkAllHardConstraints rows sections rd cfg pairs = []) ∧
      (∀ sv' : List Violation,
        (mkEvalResult (checkAllHardConstraints rows sections rd cfg pairs)
          sv').feasible =
        (mkEvalResult (checkAllHardConstraints rows sections rd cfg pairs)
          sv).feasible) := by
  intro rows sections rd cfg pairs sv
  constructor
  · simp [mkEvalResult, List.length_eq_zero]
  · intro sv'
    rfl

/-- Claim C7, witness. -/
theorem c7_feasible_witness :
    (mkEvalResult (checkAllHardConstraints [] [] emptyRefData sampleConfig
      none) []).feasible = true :=
  (c7_feasible_iff_no_hard_violations [] [] emptyRefData sampleConfig
    none []).1.mpr (by decide)

/-- Claim C8.  Every meeting belonging to any built Section has a
resolved (non-null) subject id and at least one of a resolved faculty
or a non-empty batch-id list; in particular a meeting with a null
subject id belongs to no Section even if its faculty and batches
resolved. -/
theorem c8_sections_only_classifiable_meetings :
    ∀ (rows : List Row) (rd : RefData) (s : Section) (m : Row),
      s ∈ buildSections rows rd → m ∈ s.meetings →
      m.subject_id ≠ none ∧
      (m.faculty_id ≠ none ∨ meetingBatchIds m ≠ []) := by
  intro rows rd s m hs hm
  rcases List.mem_map.mp hs with ⟨kg, hkg, hseq⟩
  have hm' : m ∈ kg.2 := by
    rw [← hseq] at hm
    simpa using hm
  have hkey := (mem_groupByKeys_char sectionKeys rows hkg).2.2 m hm'
  have hne : sectionKeys m ≠ [] := List.ne_nil_of_mem hkey.2
  unfold sectionKeys at hne
  cases hsub : m.subject_id with
  | none => rw [hsub] at hne; exact absurd rfl hne
  | some sid =>
    refine ⟨by simp [hsub], ?_⟩
    rw [hsub] at hne
    simp only [] at hne
    by_cases hc : m.faculty_id = none ∧ meetingBatchIds m = []
    · rw [if_pos hc] at hne
      exact absurd rfl hne
    · tauto

/-- Claim C8, witness. -/
theorem c8_sections_witness :
    c8row.subject_id ≠ none ∧
    (c8row.faculty_id ≠ none ∨ meetingBatchIds c8row ≠ []) :=
  c8_sections_only_classifiable_meetings [c8row] c8refData c8section c8row
    (by decide) (by decide)

/-- Claim C9, counterexample.  With a degenerate meeting whose end
precedes its start (which the loader produces for unparsable or
reversed time strings), the faculty time-conflict check emits a
violation of magnitude 0, so not every hard violation has strictly
positive magnitude. -/
theorem c9_counterexample :
    ¬ (∀ v ∈ checkAllHardConstraints [c9degRow, c9otherRow] []
        emptyRefData sampleConfig none, 0 < v.magnitude) := by
  decide

/-- Claim C9, amended.  Provided every schedule row, banned window and
external meeting is well-formed (start strictly before end), every
violation emitted by `check_all_hard_constraints` and by
`check_all_soft_constraints` has strictly positive magnitude. -/
theorem c9_amended_positive_magnitudes :
    ∀ (rows : List Row) (sections : List Section) (rd : RefData)
      (cfg : Config) (pairs : Option (List LLPair)),
      (∀ r ∈ rows, r.start_minutes < r.end_minutes) →
      (∀ b ∈ rd.bannedTimes, b.start_minutes < b.end_minutes) →
      (∀ es, rd.externalMeetings = some es →
        ∀ e ∈ es, e.start_minutes < e.end_minutes) →
      (∀ v ∈ checkAllHardConstraints rows sections rd cfg pairs,
        0 < v.magnitude) ∧
      (∀ v ∈ checkAllSoftConstraints rows sections rd cfg,
        0 < v.magnitude) := by
  intro rows sections rd cfg pairs hwr hwb hwe
  constructor
  · intro v hv
    unfold checkAllHardConstraints at hv
    simp only [List.mem_append] at hv
    rcases hv with ((((((hv | hv) | hv) | hv) | hv) | hv) | hv) | hv
    · exact entityDay_conflict_pos hwr hv
    · exact entityDay_conflict_pos hwr hv
    · exact entityDay_conflict_pos hwr hv
    · exact checkRoomCapacity_pos hv
    · exact checkMaxContinuousClass_pos hv
    · exact checkMinGap_pos hv
    · exact checkBannedTimes_pos hwr hwb hv
    · cases pairs with
      | none => cases hv
      | some ps =>
        have := checkLectureLabSeparation_magnitude hv
        omega
  · intro v hv
    unfold checkAllSoftConstraints at hv
    rw [checkFacultyOverload_eq_nil, checkFacultyUnderfill_eq_nil,
      checkSectionUnderfill_eq_nil] at hv
    simp only [List.nil_append, List.append_nil, List.mem_append] at hv
    rcases hv with (((((hv | hv) | hv) | hv) | hv) | hv) | hv
    · exact checkSectionOverfill_pos hv
    · exact checkMinContinuousClass_pos hv
    · exact checkExcessGap_pos hv
    · exact checkNonPreferredSubject_pos hv
    · exact checkFridayLateClasses_pos hv
    · exact checkExcessSubjects_pos hv
    · exact checkExternalMeetingConflicts_pos hwr hwe hv

/-- Claim C9, witness. -/
theorem c9_amended_witness : (0 : Int) < c9witnessViol.magnitude :=
  (c9_amended_positive_magnitudes [c9wfRow1, c9wfRow2] [] emptyRefData
      sampleConfig none (by decide) (by decide)
      (fun es h => nomatch h)).1 c9witnessViol (by decide)

/-- Claim C10.  For one entity's one day of meetings, the continuous-block
segmentation inside the hard Max Continuous check and the one inside
the soft Min Continuous check coincide on the start-sorted list; the
two checks are exactly threshold filters over that common block
list. -/
theorem c10_segmentations_agree :
    ∀ (l : List Row) (maxM minM : Int) (etype : String) (eid : Nat)
      (d : String),
      hardBlocks (sortByStart l) = softBlocks (sortByStart l) ∧
      maxContinuousDay maxM etype eid d l =
        (hardBlocks (sortByStart l)).filterMap (fun bk =>
          if bk.2 - bk.1 > maxM then
            some { kind := "Max Continuous Class Exceeded",
                   entityType := etype, entityId := some eid,
                   subjectId := none, day := some d,
                   magnitude := bk.2 - bk.1 - maxM }
          else none) ∧
      minContinuousDay minM etype eid d l =
        (softBlocks (sortByStart l)).filterMap (fun bk =>
          if bk.2 - bk.1 > 0 ∧ bk.2 - bk.1 < minM then
            some { kind := "Min Continuous Class", entityType := etype,
                   entityId := some eid, subjectId := none, day := some d,
                   magnitude := minM - (bk.2 - bk.1) }
          else none) := by
  intro l maxM minM etype eid d
  refine ⟨hardBlocks_eq_softBlocks _, ?_, rfl⟩
  cases hs : sortByStart l with
  | nil => simp [maxContinuousDay, hardBlocks, hs]
  | cons m rest =>
    simp only [maxContinuousDay, hardBlocks, hs]
    exact hardContinuousAux_eq_blocks maxM etype eid d rest
      m.start_minutes m.end_minutes m

end ScheduleEvaluator
